import Mathlib

/-!
Formal model of the PricePulse price worker (scripts/price-worker.ts).

The worker's pure computational core is embedded shallowly:
JavaScript numbers are modelled as rationals, nullable values as
Option, and JavaScript truthiness of a numeric value as "present and
nonzero".  Each definition mirrors the corresponding function of the
source file; the theorems at the end of the file settle the stated
properties of the ranking, normalization and orchestration logic.
-/

namespace PricePulse

/-- Model of JavaScript String.prototype.toLowerCase, applied
character by character (the source only ever lowercases product
names and titles, for which per-character lowering is exact). -/
def jsToLower (s : String) : String := ⟨s.data.map Char.toLower⟩

/-- Inner loop of the edit-distance recurrence: given the distance
function for the tail xs of the first string (one row of the
dynamic-programming matrix of levenshteinDistance in the source),
extend it by the character x to the next row. -/
def levAux (x : Char) (levxs : List Char → Nat) : List Char → Nat
  | [] => levxs [] + 1
  | y :: ys =>
      min (levxs (y :: ys) + 1)
        (min (levAux x levxs ys + 1) (levxs ys + (if x = y then 0 else 1)))

/-- Edit-distance recurrence computed by the dynamic-programming
matrix of levenshteinDistance in the source: the distance between
prefixes, with unit insert/delete/substitute costs. -/
def lev : List Char → List Char → Nat
  | [], ys => ys.length
  | x :: xs, ys => levAux x (lev xs) ys

/-- levenshteinDistance from the source: both inputs are lowercased
before the distance is computed. -/
def levenshteinDistance (s1 s2 : String) : Nat :=
  lev (jsToLower s1).data (jsToLower s2).data

/-- calculateSimilarity from the source: 1 when both strings are
empty, otherwise 1 - distance / maxLen where maxLen is the larger of
the two original lengths. -/
def calculateSimilarity (s1 s2 : String) : ℚ :=
  if max s1.length s2.length = 0 then 1
  else 1 - (levenshteinDistance s1 s2 : ℚ) / ((max s1.length s2.length : ℕ) : ℚ)

/-- The stop-word set of extractKeywords. -/
def stopWords : List String :=
  ["the", "a", "an", "and", "or", "but", "in", "with", "for", "on",
   "at", "to", "from", "by", "of", "as"]

/-- JavaScript \w character class: letters, digits and underscore. -/
def isWordChar (c : Char) : Bool := c.isAlphanum || c = '_'

/-- The character replacement of extractKeywords: every character
that is not a word character, whitespace or a hyphen becomes a
space. -/
def keepChar (c : Char) : Char :=
  if isWordChar c || c.isWhitespace || c = '-' then c else ' '

/-- Split a character list at every whitespace character.  Splitting
at each whitespace character can yield empty tokens where the
source's split on a whitespace run would not; extractKeywords
filters all of those out by token length, so the keyword lists
coincide. -/
def splitWs : List Char → List Char → List String
  | [], acc => [String.mk acc.reverse]
  | c :: cs, acc =>
      if c.isWhitespace then String.mk acc.reverse :: splitWs cs []
      else splitWs cs (c :: acc)

/-- extractKeywords from the source: lowercase, replace punctuation
by spaces, split on whitespace and keep tokens of length > 2 that
are not stop words. -/
def extractKeywords (name : String) : List String :=
  (splitWs ((jsToLower name).data.map keepChar) []).filter
    (fun w => 2 < w.length && !stopWords.contains w)

/-- Model of the JavaScript Set constructor on a list of strings:
the list of first occurrences, in insertion order. -/
def jsSet : List String → List String
  | [] => []
  | w :: ws => w :: (jsSet ws).filter (fun v => v != w)

/-- calculateKeywordScore from the source.  The Set of target
keywords is modelled by jsSet; matches counts the candidate's
keyword occurrences, with multiplicity, that belong to the target
set. -/
def calculateKeywordScore (targetName resultTitle : String) : ℚ :=
  let targetKeywords := jsSet (extractKeywords targetName)
  let resultKeywords := extractKeywords resultTitle
  if targetKeywords.length = 0 then 0
  else
    ((resultKeywords.countP (fun w => targetKeywords.contains w) : ℚ)) /
      (targetKeywords.length : ℚ)

/-! Price normalization.

The source extracts a price from an element's text with

  text.match(/[$£€]?\s*(\d\x7b1,3\x7d(?:[,.\s]\d\x7b3\x7d)*(?:[.,]\d\x7b2\x7d)?|\d+(?:[.,]\d\x7b2\x7d)?)/)

followed by whitespace stripping, comma disambiguation, parseFloat
and a plausibility band check.  The regular expression is embedded
as a deterministic matcher, which is justified as follows.  Both
alternatives of the capture group must begin with a digit, and the
optional currency symbol and whitespace before the group consume no
digits, so under leftmost-match semantics the captured group always
begins at the first digit of the text.  From there the first
alternative always succeeds (its two quantified tails can match the
empty string), so the second alternative is never used and no
quantifier ever backtracks: each greedy quantifier simply consumes
as much as it can. -/

/-- Separator class [,.\s] inside the thousands-group quantifier. -/
def isSepRep (c : Char) : Bool := c = ',' || c = '.' || c.isWhitespace

/-- Separator class [.,] before a two-digit fractional part. -/
def isDecSep (c : Char) : Bool := c = '.' || c = ','

/-- Greedy match of at most n leading characters satisfying p,
returning the match and the remainder. -/
def takeUpTo (n : Nat) (p : Char → Bool) : List Char → List Char × List Char
  | [] => ([], [])
  | c :: cs =>
      if 0 < n && p c then
        let t := takeUpTo (n - 1) p cs
        (c :: t.1, t.2)
      else ([], c :: cs)

/-- Greedy match of (?:[,.\s]\d\x7b3\x7d)* — zero or more groups of a
separator followed by exactly three digits. -/
def grabGroups : List Char → List Char × List Char
  | s :: d1 :: d2 :: d3 :: rest =>
      if isSepRep s && d1.isDigit && d2.isDigit && d3.isDigit then
        let t := grabGroups rest
        (s :: d1 :: d2 :: d3 :: t.1, t.2)
      else ([], s :: d1 :: d2 :: d3 :: rest)
  | cs => ([], cs)

/-- Greedy match of (?:[.,]\d\x7b2\x7d)? — an optional separator
followed by exactly two digits. -/
def grabDecimal : List Char → List Char × List Char
  | s :: d1 :: d2 :: rest =>
      if isDecSep s && d1.isDigit && d2.isDigit then ([s, d1, d2], rest)
      else ([], s :: d1 :: d2 :: rest)
  | cs => ([], cs)

/-- The capture group matched from a position that starts with a
digit: \d\x7b1,3\x7d, then thousands groups, then an optional
fractional part. -/
def matchNumber (cs : List Char) : List Char :=
  let d := takeUpTo 3 Char.isDigit cs
  let g := grabGroups d.2
  let f := grabDecimal g.2
  d.1 ++ g.1 ++ f.1

/-- match[1] of the price pattern on a whole text: none when the
text has no digit, otherwise the group captured from the first
digit on. -/
def firstNumberMatch (text : String) : Option (List Char) :=
  match text.data.dropWhile (fun c => !c.isDigit) with
  | [] => none
  | c :: cs => some (matchNumber (c :: cs))

/-- match[1].replace(/\s/g, '') from the source. -/
def stripSpaces (cs : List Char) : List Char :=
  cs.filter (fun c => !c.isWhitespace)

/-- The test /,\d\x7b2\x7d$/ from the source: the string ends with a
comma followed by exactly two digits. -/
def endsCommaTwoDigits (cs : List Char) : Bool :=
  match cs.reverse with
  | a :: b :: c :: _ => a.isDigit && b.isDigit && c = ','
  | _ => false

/-- priceStr.replace(',', '.') — JavaScript replace with a string
pattern replaces only the first occurrence. -/
def replaceFirstComma : List Char → List Char
  | [] => []
  | c :: cs => if c = ',' then '.' :: cs else c :: replaceFirstComma cs

/-- priceStr.replace(/,/g, '') from the source. -/
def stripCommas (cs : List Char) : List Char := cs.filter (fun c => c != ',')

/-- The comma disambiguation of the source: a trailing ",dd" with no
period present marks the comma as a European decimal separator;
otherwise all commas are stripped as thousands separators. -/
def commaFix (cs : List Char) : List Char :=
  if endsCommaTwoDigits cs && !cs.contains '.' then replaceFirstComma cs
  else stripCommas cs

/-- Numeric value of a digit string. -/
def digitsToNat (ds : List Char) : Nat :=
  ds.foldl (fun n c => 10 * n + (c.toNat - '0'.toNat)) 0

/-- Model of JavaScript parseFloat restricted to the strings the
pipeline produces (these always start with a digit and contain only
digits, periods and commas): parse the longest numeric leading
segment — digits, then optionally a period and further digits — and
ignore the rest; none when no leading digit exists (parseFloat
returns NaN there). -/
def parseFloatJs (cs : List Char) : Option ℚ :=
  match cs.takeWhile Char.isDigit, cs.dropWhile Char.isDigit with
  | [], _ => none
  | intDigits, rest =>
      some <|
        match rest with
        | '.' :: rest2 =>
            let fracDigits := rest2.takeWhile Char.isDigit
            (digitsToNat intDigits : ℚ) +
              (digitsToNat fracDigits : ℚ) / ((10 : ℚ) ^ fracDigits.length)
        | _ => (digitsToNat intDigits : ℚ)

/-- The value parseFloat produces for one element text, before the
plausibility band is applied. -/
def parsePriceText (text : String) : Option ℚ :=
  (firstNumberMatch text).bind fun g => parseFloatJs (commaFix (stripSpaces g))

/-- Price extraction for one element text as in the source loops
(scrapeWithPuppeteer and the in-page extractor of
scrapeSearchResults): the parsed value is kept only when it lies
strictly between 0 and 100000. -/
def extractPrice (text : String) : Option ℚ :=
  match parsePriceText text with
  | some p => if 0 < p ∧ p < 100000 then some p else none
  | none => none

/-! The result ranker of scrapeSearchResults. -/

/-- One raw candidate from the multi-result extraction: title,
validated price and container position index. -/
structure SearchResult where
  title : String
  price : ℚ
  position : ℕ
deriving DecidableEq

/-- The accepted best match returned by scrapeSearchResults. -/
structure RankedMatch where
  price : ℚ
  currency : String
  title : String
  score : ℚ
deriving DecidableEq

/-- The price-plausibility component of the score, as computed in
the source.  The reference price is nullable; the JavaScript guard
referencePrice && referencePrice > 0 is truthiness (nonnull and
nonzero) plus positivity. -/
def priceScore (referencePrice : Option ℚ) (price : ℚ) : ℚ :=
  match referencePrice with
  | some ref =>
      if ref ≠ 0 ∧ 0 < ref then
        let rat := price / ref
        if 0.5 ≤ rat ∧ rat ≤ 1.5 then 1 - |1 - rat|
        else if rat < 0.5 then 0.2
        else 0.3
      else 0.5
  | none => 0.5

/-- The price-plausibility score as the specification words it:
0.5 when no positive reference price is given; with ratio =
candidatePrice / referencePrice otherwise, 0.2 when ratio < 0.5,
0.3 when ratio > 1.5, and 1 - |1 - ratio| when ratio lies in
[0.5, 1.5]. -/
def priceScoreSpec (referencePrice : Option ℚ) (price : ℚ) : ℚ :=
  if _h : ∀ ref, referencePrice = some ref → ref ≤ 0 then 0.5
  else
    match referencePrice with
    | none => 0.5
    | some ref =>
        if price / ref < 0.5 then 0.2
        else if 1.5 < price / ref then 0.3
        else 1 - |1 - price / ref|

/-- The weighted total score of one candidate, as in the source. -/
def totalScore (targetProductName : String) (referencePrice : Option ℚ)
    (r : SearchResult) : ℚ :=
  calculateSimilarity targetProductName r.title * 0.4 +
    calculateKeywordScore targetProductName r.title * 0.3 +
    (1 - r.position * 0.05) * 0.2 +
    priceScore referencePrice r.price * 0.1

/-- First element attaining the maximal value of f: the element the
source's stable descending sort by score places first.  The
accumulator is replaced only on a strictly larger score, so among
equal scores the earliest candidate wins, exactly as a stable
descending sort followed by taking index 0. -/
def pickBest (f : SearchResult → ℚ) (b : SearchResult) :
    List SearchResult → SearchResult
  | [] => b
  | c :: cs => pickBest f (if f b < f c then c else b) cs

/-- The scoring-and-selection step of scrapeSearchResults: score
every extracted result, take the best, and accept it only when its
score reaches the 0.3 threshold. -/
def scrapeSearchRank (results : List SearchResult) (targetProductName : String)
    (referencePrice : Option ℚ) (expectedCurrency : String) : Option RankedMatch :=
  match results with
  | [] => none
  | r0 :: rest =>
      let best := pickBest (totalScore targetProductName referencePrice) r0 rest
      if 0.3 ≤ totalScore targetProductName referencePrice best then
        some ⟨best.price, expectedCurrency, best.title,
          totalScore targetProductName referencePrice best⟩
      else none

/-- The scoring-and-selection contract of the result ranker, stated
over a candidate list: every candidate's total score is the claimed
weighted sum (with the price component worded as the specification
words it), and the ranker returns a candidate of maximal score when
that score reaches 0.3 and reports no match otherwise. -/
def rankerSelectsSpec (results : List SearchResult) (targetName : String)
    (referencePrice : Option ℚ) (currency : String) : Prop :=
  (∀ r ∈ results, totalScore targetName referencePrice r =
      0.4 * calculateSimilarity targetName r.title +
      0.3 * calculateKeywordScore targetName r.title +
      0.2 * (1 - 0.05 * (r.position : ℚ)) +
      0.1 * priceScoreSpec referencePrice r.price) ∧
  (match scrapeSearchRank results targetName referencePrice currency with
   | some m =>
       0.3 ≤ m.score ∧ m.currency = currency ∧
       (∃ r ∈ results, m.title = r.title ∧ m.price = r.price ∧
         m.score = totalScore targetName referencePrice r) ∧
       (∀ r ∈ results, totalScore targetName referencePrice r ≤ m.score)
   | none => ∀ r ∈ results, totalScore targetName referencePrice r < 0.3)

/-! The store directory and the per-product orchestration of
runPriceCheck. -/

/-- STORE_CONFIGS from the source, reduced to the store display
names per currency (search-URL builders and CSS selectors are
browser-side scraping configuration with no bearing on the verified
logic; the list structure and order are preserved). -/
def STORE_CONFIGS : List (String × List String) :=
  [("USD", ["Amazon", "eBay", "Walmart", "Target", "Best Buy"]),
   ("GBP", ["Amazon", "eBay", "Argos", "John Lewis", "PriceRunner"]),
   ("EUR", ["Amazon", "eBay", "Idealo", "MediaMarkt"]),
   ("CAD", ["Amazon", "eBay", "Best Buy CA", "Walmart CA"]),
   ("AUD", ["Amazon", "eBay", "Kogan", "JB Hi-Fi"])]

/-- getStoresForCurrency from the source: the currency's store list,
falling back to the USD list for unknown currencies. -/
def getStoresForCurrency (currency : String) : List String :=
  ((STORE_CONFIGS.lookup currency).getD
    ((STORE_CONFIGS.lookup "USD").getD []))

/-- Whether pat occurs at the front of s. -/
def matchesFront : List Char → List Char → Bool
  | [], _ => true
  | _ :: _, [] => false
  | p :: ps, c :: cs => p = c && matchesFront ps cs

/-- Model of JavaScript String.prototype.includes: substring
containment at any position. -/
def jsIncludes (s pat : String) : Bool := go s.data pat.data
where
  go : List Char → List Char → Bool
    | [], pat => pat.isEmpty
    | c :: cs, pat => matchesFront pat (c :: cs) || go cs pat

/-- The currency resolution of runPriceCheck: substring checks on
the URL hostname, in the fixed order of the source, falling back to
the stored currency. -/
def resolveCurrency (hostname : String) (stored : String) : String :=
  if jsIncludes hostname ".co.uk" then "GBP"
  else if jsIncludes hostname ".de" || jsIncludes hostname ".fr" ||
      jsIncludes hostname ".it" || jsIncludes hostname ".es" then "EUR"
  else if jsIncludes hostname ".ca" then "CAD"
  else if jsIncludes hostname ".com.au" then "AUD"
  else stored

/-- The externally visible effects of one per-product iteration of
runPriceCheck. -/
structure CycleEffects where
  /-- The status value written to the product row. -/
  status : String
  /-- Appended price-history entries as (price, source) pairs. -/
  historyInserts : List (ℚ × String)
  /-- Number of comparison-price rows upserted this cycle: one per
  store of the currency's directory entry when comparison scraping
  runs, zero when it is skipped. -/
  comparisonUpserts : ℕ
  /-- Number of outbound webhook requests issued. -/
  webhookPosts : ℕ
deriving DecidableEq

/-- One per-product iteration of runPriceCheck, given the outcome of
the own-page scrape (the successfully scraped price, or none), the
stored current price (nullable) and the resolved currency.  The
webhookConfigured argument records whether the owning user has a
webhook URL configured; the source never consults it —
sendDiscordNotification is defined in the worker but is never
invoked, so no code path issues a webhook request. -/
def runProductCycle (scraped : Option ℚ) (oldPrice : Option ℚ)
    (currency : String) (_webhookConfigured : Bool) : CycleEffects :=
  match scraped with
  | some newPrice =>
      { status := "tracking"
        historyInserts :=
          match oldPrice with
          | some o =>
              if o ≠ 0 ∧ newPrice < o then [(newPrice, "price_worker_automation")]
              else if o ≠ 0 ∧ o < newPrice then [(newPrice, "price_worker_automation")]
              else []
          | none => []
        comparisonUpserts := (getStoresForCurrency currency).length
        webhookPosts := 0 }
  | none =>
      { status := "scrape_failed"
        historyInserts := []
        comparisonUpserts := 0
        webhookPosts := 0 }

/-! Lemmas about the edit-distance recurrence. -/

theorem lev_cons_cons (x y : Char) (xs ys : List Char) :
    lev (x :: xs) (y :: ys) =
      min (lev xs (y :: ys) + 1)
        (min (lev (x :: xs) ys + 1) (lev xs ys + (if x = y then 0 else 1))) := rfl

theorem lev_nil_right (xs : List Char) : lev xs [] = xs.length := by
  induction xs with
  | nil => rfl
  | cons x xs ih => simp [lev, levAux, ih]

theorem lev_self (xs : List Char) : lev xs xs = 0 := by
  induction xs with
  | nil => rfl
  | cons x xs ih => rw [lev_cons_cons]; simp [ih]

theorem lev_comm (xs ys : List Char) : lev xs ys = lev ys xs := by
  generalize hn : xs.length + ys.length = n
  induction n using Nat.strong_induction_on generalizing xs ys with
  | _ n ih =>
    cases xs with
    | nil => rw [lev_nil_right]; rfl
    | cons x xs =>
      cases ys with
      | nil => rw [lev_nil_right]; rfl
      | cons y ys =>
        rw [lev_cons_cons, lev_cons_cons]
        simp only [List.length_cons] at hn
        have e1 : lev xs (y :: ys) = lev (y :: ys) xs :=
          ih (xs.length + (y :: ys).length) (by simp; omega) xs (y :: ys) rfl
        have e2 : lev (x :: xs) ys = lev ys (x :: xs) :=
          ih ((x :: xs).length + ys.length) (by simp; omega) (x :: xs) ys rfl
        have e3 : lev xs ys = lev ys xs :=
          ih (xs.length + ys.length) (by omega) xs ys rfl
        have hc : (if x = y then 0 else 1) = (if y = x then 0 else 1) := by
          by_cases h : x = y
          · simp [h]
          · simp [h, Ne.symm h]
        rw [e1, e2, e3, hc]
        exact min_left_comm _ _ _

theorem jsToLower_length (s : String) : (jsToLower s).length = s.length := by
  show (s.data.map Char.toLower).length = s.data.length
  simp

/-- C8: similarity(s, s) = 1 for every string, similarity is
symmetric, and the comparison is case-insensitive: strings equal
after lowercasing have similarity 1. -/
theorem similarity_contract :
    (∀ s : String, calculateSimilarity s s = 1) ∧
    (∀ a b : String, calculateSimilarity a b = calculateSimilarity b a) ∧
    (∀ a b : String, jsToLower a = jsToLower b → calculateSimilarity a b = 1) := by
  refine ⟨?_, ?_, ?_⟩
  · intro s
    have hd : levenshteinDistance s s = 0 := lev_self _
    simp [calculateSimilarity, hd]
  · intro a b
    have h1 : max b.length a.length = max a.length b.length := Nat.max_comm _ _
    have h2 : levenshteinDistance b a = levenshteinDistance a b := lev_comm _ _
    unfold calculateSimilarity
    rw [h1, h2]
  · intro a b h
    have hd : levenshteinDistance a b = 0 := by
      rw [levenshteinDistance, h]; exact lev_self _
    simp [calculateSimilarity, hd]

/-- Witness for similarity_contract: two concrete strings differing
only in letter case have similarity exactly 1. -/
theorem similarity_contract_witness :
    jsToLower "Abc" = jsToLower "aBC" ∧ calculateSimilarity "Abc" "aBC" = 1 :=
  ⟨by decide, similarity_contract.2.2 "Abc" "aBC" (by decide)⟩

/-! Lemmas about the keyword machinery. -/

theorem mem_jsSet {a : String} : ∀ l, a ∈ jsSet l ↔ a ∈ l := by
  intro l
  induction l with
  | nil => simp [jsSet]
  | cons w ws ih =>
    by_cases h : a = w <;> simp [jsSet, List.mem_filter, bne_iff_ne, ih, h]

theorem nodup_jsSet : ∀ l : List String, List.Nodup (jsSet l) := by
  intro l
  induction l with
  | nil => simp [jsSet]
  | cons w ws ih =>
    simp only [jsSet, List.nodup_cons]
    refine ⟨by simp [List.mem_filter], ih.filter _⟩

theorem jsSet_length (l : List String) : (jsSet l).length = l.dedup.length := by
  have hperm : List.Perm (jsSet l) l.dedup :=
    (List.perm_ext_iff_of_nodup (nodup_jsSet l) l.nodup_dedup).mpr
      (fun a => by simp [mem_jsSet, List.mem_dedup])
  exact hperm.length_eq

theorem jsSet_contains_eq (l : List String) (w : String) :
    (jsSet l).contains w = decide (w ∈ l) := by
  simp [List.contains, List.elem_eq_mem, mem_jsSet]

/-- C3 counterexample: the keyword score is not the fraction of
target tokens covered and is not bounded by 1 — a candidate title
repeating one target keyword three times scores 3/2. -/
theorem keyword_score_exceeds_one :
    calculateKeywordScore "red box" "red red red" = 3 / 2 ∧
    ¬ calculateKeywordScore "red box" "red red red" ≤ 1 := by
  have h1 : jsSet (extractKeywords "red box") = ["red", "box"] := by decide
  have h2 : (extractKeywords "red red red").countP
      (fun w => (["red", "box"] : List String).contains w) = 3 := by decide
  have hval : calculateKeywordScore "red box" "red red red" = 3 / 2 := by
    simp only [calculateKeywordScore, h1, h2]
    norm_num
  exact ⟨hval, by rw [hval]; norm_num⟩

/-- C3 amended: the keyword score is nonnegative, is 0 when the
target has no significant tokens, and otherwise equals the number
of the candidate's significant tokens, counted with multiplicity,
that occur among the target's significant tokens, divided by the
number of distinct significant target tokens — so it can exceed 1
when the candidate repeats a target token. -/
theorem keyword_score_formula (targetName resultTitle : String) :
    0 ≤ calculateKeywordScore targetName resultTitle ∧
    ((extractKeywords targetName).dedup = [] →
      calculateKeywordScore targetName resultTitle = 0) ∧
    ((extractKeywords targetName).dedup ≠ [] →
      calculateKeywordScore targetName resultTitle =
        ((extractKeywords resultTitle).countP
            (fun w => decide (w ∈ extractKeywords targetName)) : ℚ) /
          ((extractKeywords targetName).dedup.length : ℚ)) := by
  have hcnt : (extractKeywords resultTitle).countP
      (fun w => (jsSet (extractKeywords targetName)).contains w) =
      (extractKeywords resultTitle).countP
        (fun w => decide (w ∈ extractKeywords targetName)) :=
    List.countP_congr (fun w _ => by rw [jsSet_contains_eq])
  refine ⟨?_, ?_, ?_⟩
  · simp only [calculateKeywordScore]
    split
    · exact le_refl 0
    · positivity
  · intro h0
    have : (jsSet (extractKeywords targetName)).length = 0 := by
      rw [jsSet_length, h0]; rfl
    simp [calculateKeywordScore, this]
  · intro hne
    have hlen : (jsSet (extractKeywords targetName)).length =
        (extractKeywords targetName).dedup.length := jsSet_length _
    have hpos : ¬ (jsSet (extractKeywords targetName)).length = 0 := by
      rw [hlen]
      simpa [List.length_eq_zero] using hne
    simp only [calculateKeywordScore]
    rw [if_neg hpos, hcnt, hlen]

/-- Witness for keyword_score_formula at a concrete pair: the target
"red box" against itself. -/
theorem keyword_score_formula_witness :
    0 ≤ calculateKeywordScore "red box" "red box" ∧
    ((extractKeywords "red box").dedup = [] →
      calculateKeywordScore "red box" "red box" = 0) ∧
    ((extractKeywords "red box").dedup ≠ [] →
      calculateKeywordScore "red box" "red box" =
        ((extractKeywords "red box").countP
            (fun w => decide (w ∈ extractKeywords "red box")) : ℚ) /
          ((extractKeywords "red box").dedup.length : ℚ)) :=
  keyword_score_formula "red box" "red box"

/-! Lemmas about price normalization. -/

theorem endsCommaTwoDigits_iff (cs : List Char) :
    endsCommaTwoDigits cs = true ↔
      ∃ t d1 d2, cs = t ++ [',', d1, d2] ∧ d1.isDigit ∧ d2.isDigit := by
  constructor
  · intro h
    rcases hr : cs.reverse with _ | ⟨a, _ | ⟨b, _ | ⟨c, t⟩⟩⟩ <;>
        rw [endsCommaTwoDigits, hr] at h
    · simp at h
    · simp at h
    · simp at h
    · simp only [Bool.and_eq_true, decide_eq_true_eq] at h
      obtain ⟨⟨ha, hb⟩, hc⟩ := h
      refine ⟨t.reverse, b, a, ?_, hb, ha⟩
      have hcs : cs = (a :: b :: c :: t).reverse := by rw [← hr, List.reverse_reverse]
      simpa [hc] using hcs
  · rintro ⟨t, d1, d2, rfl, hd1, hd2⟩
    rw [endsCommaTwoDigits]
    have : (t ++ [',', d1, d2]).reverse = d2 :: d1 :: ',' :: t.reverse := by simp
    rw [this]
    simp [hd1, hd2]

theorem contains_eq_decide_mem (cs : List Char) (c : Char) :
    cs.contains c = decide (c ∈ cs) := by
  simp [List.contains, List.elem_eq_mem]

/-- Shared concrete evaluation: the US/UK format with a thousands
comma and a decimal period. -/
theorem extractPrice_usd_eval : extractPrice "$1,234.56" = some (1234.56 : ℚ) := by
  have h1 : firstNumberMatch "$1,234.56" =
      some ['1', ',', '2', '3', '4', '.', '5', '6'] := by decide
  have h2 : commaFix (stripSpaces ['1', ',', '2', '3', '4', '.', '5', '6']) =
      ['1', '2', '3', '4', '.', '5', '6'] := by decide
  have h3 : List.takeWhile Char.isDigit ['1', '2', '3', '4', '.', '5', '6'] =
      ['1', '2', '3', '4'] := by decide
  have h4 : List.dropWhile Char.isDigit ['1', '2', '3', '4', '.', '5', '6'] =
      '.' :: ['5', '6'] := by decide
  have h5 : parseFloatJs ['1', '2', '3', '4', '.', '5', '6'] =
      some ((1234 : ℚ) + (56 : ℚ) / 10 ^ 2) := by
    rw [parseFloatJs, h3, h4]
    have h6 : List.takeWhile Char.isDigit ['5', '6'] = ['5', '6'] := by decide
    have d1 : digitsToNat ['1', '2', '3', '4'] = 1234 := by decide
    have d2 : digitsToNat ['5', '6'] = 56 := by decide
    simp only [h6, d1, d2, List.length_cons, List.length_nil]
    norm_num
  rw [extractPrice, parsePriceText, h1]
  simp only [Option.bind, h2, h5]
  norm_num

/-- Shared concrete evaluation: the European format with a decimal
comma. -/
theorem extractPrice_eu_eval : extractPrice "12,99" = some (12.99 : ℚ) := by
  have h1 : firstNumberMatch "12,99" = some ['1', '2', ',', '9', '9'] := by decide
  have h2 : commaFix (stripSpaces ['1', '2', ',', '9', '9']) =
      ['1', '2', '.', '9', '9'] := by decide
  have h3 : List.takeWhile Char.isDigit ['1', '2', '.', '9', '9'] =
      ['1', '2'] := by decide
  have h4 : List.dropWhile Char.isDigit ['1', '2', '.', '9', '9'] =
      '.' :: ['9', '9'] := by decide
  have h5 : parseFloatJs ['1', '2', '.', '9', '9'] =
      some ((12 : ℚ) + (99 : ℚ) / 10 ^ 2) := by
    rw [parseFloatJs, h3, h4]
    have h6 : List.takeWhile Char.isDigit ['9', '9'] = ['9', '9'] := by decide
    have d1 : digitsToNat ['1', '2'] = 12 := by decide
    have d2 : digitsToNat ['9', '9'] = 99 := by decide
    simp only [h6, d1, d2, List.length_cons, List.length_nil]
    norm_num
  rw [extractPrice, parsePriceText, h1]
  simp only [Option.bind, h2, h5]
  norm_num

/-- Shared concrete evaluation: the European thousands-period format
"1.234,56".  The trailing ",56" is preceded by a period, so the
disambiguation strips the comma instead of treating it as the
decimal separator, and parseFloat then reads "1.23456". -/
theorem extractPrice_mixed_eval : extractPrice "1.234,56" = some (1.23456 : ℚ) := by
  have h1 : firstNumberMatch "1.234,56" =
      some ['1', '.', '2', '3', '4', ',', '5', '6'] := by decide
  have h2 : commaFix (stripSpaces ['1', '.', '2', '3', '4', ',', '5', '6']) =
      ['1', '.', '2', '3', '4', '5', '6'] := by decide
  have h3 : List.takeWhile Char.isDigit ['1', '.', '2', '3', '4', '5', '6'] =
      ['1'] := by decide
  have h4 : List.dropWhile Char.isDigit ['1', '.', '2', '3', '4', '5', '6'] =
      '.' :: ['2', '3', '4', '5', '6'] := by decide
  have h5 : parseFloatJs ['1', '.', '2', '3', '4', '5', '6'] =
      some ((1 : ℚ) + (23456 : ℚ) / 10 ^ 5) := by
    rw [parseFloatJs, h3, h4]
    have h6 : List.takeWhile Char.isDigit ['2', '3', '4', '5', '6'] =
        ['2', '3', '4', '5', '6'] := by decide
    have d1 : digitsToNat ['1'] = 1 := by decide
    have d2 : digitsToNat ['2', '3', '4', '5', '6'] = 23456 := by decide
    simp only [h6, d1, d2, List.length_cons, List.length_nil]
    norm_num
  rw [extractPrice, parsePriceText, h1]
  simp only [Option.bind, h2, h5]
  norm_num

/-- Shared concrete evaluation: the pattern \d\x7b1,3\x7d captures only
"999" from "999999" (no separator follows the third digit), so the
parsed value is 999, inside the plausibility band. -/
theorem extractPrice_nines_eval : extractPrice "999999" = some (999 : ℚ) := by
  have h1 : firstNumberMatch "999999" = some ['9', '9', '9'] := by decide
  have h2 : commaFix (stripSpaces ['9', '9', '9']) = ['9', '9', '9'] := by decide
  have h3 : List.takeWhile Char.isDigit ['9', '9', '9'] = ['9', '9', '9'] := by decide
  have h4 : List.dropWhile Char.isDigit ['9', '9', '9'] = [] := by decide
  have h5 : parseFloatJs ['9', '9', '9'] = some (999 : ℚ) := by
    rw [parseFloatJs, h3, h4]
    have d1 : digitsToNat ['9', '9', '9'] = 999 := by decide
    simp only [d1]
    norm_num
  rw [extractPrice, parsePriceText, h1]
  simp only [Option.bind, h2, h5]
  norm_num

/-- Shared concrete evaluation: "0" parses to 0, which the band
check rejects. -/
theorem extractPrice_zero_eval : extractPrice "0" = none := by
  have h1 : firstNumberMatch "0" = some ['0'] := by decide
  have h2 : commaFix (stripSpaces ['0']) = ['0'] := by decide
  have h3 : List.takeWhile Char.isDigit ['0'] = ['0'] := by decide
  have h4 : List.dropWhile Char.isDigit ['0'] = [] := by decide
  have h5 : parseFloatJs ['0'] = some (0 : ℚ) := by
    rw [parseFloatJs, h3, h4]
    have d1 : digitsToNat ['0'] = 0 := by decide
    simp only [d1]
    norm_num
  rw [extractPrice, parsePriceText, h1]
  simp only [Option.bind, h2, h5]
  norm_num

/-- C2 counterexample: on "1.234,56" the normalizer returns 1.23456,
not 1234.56 — the matched string contains a period, so by the
disambiguation rule the comma is stripped rather than treated as
the decimal separator, contradicting the claimed round trip. -/
theorem normalize_eu_thousands_counterexample :
    extractPrice "1.234,56" = some (1.23456 : ℚ) ∧ (1.23456 : ℚ) ≠ (1234.56 : ℚ) :=
  ⟨extractPrice_mixed_eval, by norm_num⟩

/-- C2 amended: the comma disambiguation rule holds exactly as
stated (a trailing comma-plus-two-digits with no period present
makes the comma the decimal separator, first occurrence replaced;
otherwise all commas are stripped), and consequently
normalize("$1,234.56") = 1234.56, normalize("12,99") = 12.99, but
normalize("1.234,56") = 1.23456 (its matched string contains a
period, so the rule strips the comma). -/
theorem comma_rule (cs : List Char) :
    (((∃ t d1 d2, cs = t ++ [',', d1, d2] ∧ d1.isDigit ∧ d2.isDigit) ∧ '.' ∉ cs) →
      commaFix cs = replaceFirstComma cs) ∧
    ((¬ ((∃ t d1 d2, cs = t ++ [',', d1, d2] ∧ d1.isDigit ∧ d2.isDigit) ∧ '.' ∉ cs)) →
      commaFix cs = stripCommas cs) ∧
    extractPrice "$1,234.56" = some (1234.56 : ℚ) ∧
    extractPrice "12,99" = some (12.99 : ℚ) ∧
    extractPrice "1.234,56" = some (1.23456 : ℚ) := by
  refine ⟨?_, ?_, extractPrice_usd_eval, extractPrice_eu_eval, extractPrice_mixed_eval⟩
  · rintro ⟨hpat, hnot⟩
    have h1 : endsCommaTwoDigits cs = true := (endsCommaTwoDigits_iff cs).mpr hpat
    have h2 : cs.contains '.' = false := by
      rw [contains_eq_decide_mem]
      simpa using hnot
    unfold commaFix
    rw [h1, h2]
    simp
  · intro hn
    by_cases h1 : endsCommaTwoDigits cs = true
    · have hmem : '.' ∈ cs := by
        by_contra hno
        exact hn ⟨(endsCommaTwoDigits_iff cs).mp h1, hno⟩
      have h2 : cs.contains '.' = true := by
        rw [contains_eq_decide_mem]; simpa using hmem
      unfold commaFix
      rw [h1, h2]
      simp
    · have h1f : endsCommaTwoDigits cs = false := by
        simpa using h1
      unfold commaFix
      rw [h1f]
      simp

/-- Witness for comma_rule: the matched string "1,99" ends in a
comma and two digits with no period, and the rule turns its comma
into a period. -/
theorem comma_rule_witness :
    commaFix ['1', ',', '9', '9'] = replaceFirstComma ['1', ',', '9', '9'] :=
  (comma_rule ['1', ',', '9', '9']).1
    ⟨⟨['1'], '9', '9', rfl, rfl, rfl⟩, by decide⟩

/-- C6 counterexample: normalize("999999") is not treated as
not-found — the numeric pattern captures only "999", which parses
to 999 and lies inside the plausibility band. -/
theorem normalize_nines_counterexample :
    extractPrice "999999" = some (999 : ℚ) := extractPrice_nines_eval

/-- C6 amended: every price the extractor returns lies strictly
between 0 and 100000, and any parsed value outside that band is
rejected as not-found; normalize("0") is indeed not-found, but
normalize("999999") yields 999 (the pattern captures only the first
three digits), not not-found. -/
theorem price_band_rejection :
    (∀ text : String, ∀ p : ℚ, extractPrice text = some p → 0 < p ∧ p < 100000) ∧
    (∀ text : String, ∀ v : ℚ, parsePriceText text = some v →
      (v ≤ 0 ∨ 100000 ≤ v) → extractPrice text = none) ∧
    extractPrice "0" = none ∧
    extractPrice "999999" = some (999 : ℚ) := by
  refine ⟨?_, ?_, extractPrice_zero_eval, extractPrice_nines_eval⟩
  · intro text p h
    rw [extractPrice] at h
    rcases hp : parsePriceText text with _ | q
    · rw [hp] at h; simp at h
    · rw [hp] at h
      have h' : (if 0 < q ∧ q < 100000 then some q else none) = some p := h
      by_cases hband : 0 < q ∧ q < 100000
      · rw [if_pos hband] at h'
        obtain rfl : q = p := by simpa using h'
        exact hband
      · rw [if_neg hband] at h'
        exact absurd h' (by simp)
  · intro text v hv hout
    rw [extractPrice, hv]
    show (if 0 < v ∧ v < 100000 then some v else none) = none
    rw [if_neg]
    rintro ⟨hb1, hb2⟩
    rcases hout with h | h
    · linarith
    · linarith

/-- Witness for price_band_rejection: the band bounds applied to the
concrete extraction from "12,99". -/
theorem price_band_rejection_witness :
    extractPrice "12,99" = some (12.99 : ℚ) ∧
    (0 : ℚ) < 12.99 ∧ (12.99 : ℚ) < 100000 :=
  ⟨extractPrice_eu_eval, price_band_rejection.1 "12,99" 12.99 extractPrice_eu_eval⟩

/-! Lemmas about the result ranker. -/

theorem priceScore_eq_spec (referencePrice : Option ℚ) (price : ℚ) :
    priceScore referencePrice price = priceScoreSpec referencePrice price := by
  cases referencePrice with
  | none => simp [priceScore, priceScoreSpec]
  | some r =>
    by_cases hr : 0 < r
    · have hcond : ¬ ∀ ref, (some r : Option ℚ) = some ref → ref ≤ 0 := by
        push_neg
        exact ⟨r, rfl, hr⟩
      simp only [priceScore, priceScoreSpec]
      rw [dif_neg hcond, if_pos ⟨ne_of_gt hr, hr⟩]
      rcases lt_or_le (price / r) 0.5 with hlt | hge
      · rw [if_neg (fun hc => absurd hc.1 (not_le.mpr hlt)), if_pos hlt, if_pos hlt]
      · rcases le_or_lt (price / r) 1.5 with hle | hgt
        · rw [if_pos ⟨hge, hle⟩, if_neg (not_lt.mpr hge), if_neg (not_lt.mpr hle)]
        · rw [if_neg (fun hc => absurd hc.2 (not_le.mpr hgt)),
            if_neg (not_lt.mpr hge), if_neg (not_lt.mpr hge), if_pos hgt]
    · have hcond : ∀ ref, (some r : Option ℚ) = some ref → ref ≤ 0 := by
        intro ref h
        cases h
        exact le_of_not_lt hr
      simp only [priceScore, priceScoreSpec]
      rw [dif_pos hcond, if_neg (fun hc => hr hc.2)]

theorem pickBest_spec (f : SearchResult → ℚ) (b : SearchResult)
    (cs : List SearchResult) :
    (pickBest f b cs = b ∨ pickBest f b cs ∈ cs) ∧
    f b ≤ f (pickBest f b cs) ∧ ∀ c ∈ cs, f c ≤ f (pickBest f b cs) := by
  induction cs generalizing b with
  | nil => simp [pickBest]
  | cons c cs ih =>
    rw [pickBest]
    by_cases hbc : f b < f c
    · rw [if_pos hbc]
      obtain ⟨hmem, hble, hall⟩ := ih c
      refine ⟨?_, le_trans (le_of_lt hbc) hble, ?_⟩
      · rcases hmem with h | h
        · exact Or.inr (by rw [h]; exact List.mem_cons_self c cs)
        · exact Or.inr (List.mem_cons_of_mem c h)
      · intro d hd
        rcases List.mem_cons.mp hd with rfl | hd'
        · exact hble
        · exact hall d hd'
    · rw [if_neg hbc]
      obtain ⟨hmem, hble, hall⟩ := ih b
      refine ⟨?_, hble, ?_⟩
      · rcases hmem with h | h
        · exact Or.inl h
        · exact Or.inr (List.mem_cons_of_mem c h)
      · intro d hd
        rcases List.mem_cons.mp hd with rfl | hd'
        · exact le_trans (not_lt.mp hbc) hble
        · exact hall d hd'

/-- C1: for every non-empty candidate list, target name and optional
reference price, every candidate's total score is the claimed
weighted sum 0.4·similarity + 0.3·keywordOverlap + 0.2·(1 − 0.05·
position) + 0.1·priceScore with the claimed price-plausibility
cases, and the ranker returns a highest-scoring candidate exactly
when its score reaches 0.3, reporting no match otherwise. -/
theorem ranker_scores_and_selects (results : List SearchResult)
    (targetName : String) (referencePrice : Option ℚ) (currency : String)
    (hne : results ≠ []) :
    rankerSelectsSpec results targetName referencePrice currency := by
  unfold rankerSelectsSpec
  constructor
  · intro r _
    simp only [totalScore]
    rw [priceScore_eq_spec]
    ring
  · rcases results with _ | ⟨r0, rest⟩
    · exact absurd rfl hne
    · obtain ⟨hmem, hble, hall⟩ :=
        pickBest_spec (totalScore targetName referencePrice) r0 rest
      by_cases hth : (0.3 : ℚ) ≤ totalScore targetName referencePrice
          (pickBest (totalScore targetName referencePrice) r0 rest)
      · have hsr : scrapeSearchRank (r0 :: rest) targetName referencePrice currency =
            some ⟨(pickBest (totalScore targetName referencePrice) r0 rest).price,
              currency,
              (pickBest (totalScore targetName referencePrice) r0 rest).title,
              totalScore targetName referencePrice
                (pickBest (totalScore targetName referencePrice) r0 rest)⟩ := by
          simp only [scrapeSearchRank]
          rw [if_pos hth]
        rw [hsr]
        refine ⟨hth, rfl,
          ⟨pickBest (totalScore targetName referencePrice) r0 rest, ?_, rfl, rfl, rfl⟩,
          ?_⟩
        · rcases hmem with h | h
          · rw [h]; exact List.mem_cons_self r0 rest
          · exact List.mem_cons_of_mem r0 h
        · intro r hr
          rcases List.mem_cons.mp hr with rfl | hr'
          · exact hble
          · exact hall r hr'
      · have hsr : scrapeSearchRank (r0 :: rest) targetName referencePrice currency =
            none := by
          simp only [scrapeSearchRank]
          rw [if_neg hth]
        rw [hsr]
        intro r hr
        have hle : totalScore targetName referencePrice r ≤
            totalScore targetName referencePrice
              (pickBest (totalScore targetName referencePrice) r0 rest) := by
          rcases List.mem_cons.mp hr with rfl | hr'
          · exact hble
          · exact hall r hr'
        exact lt_of_le_of_lt hle (not_le.mp hth)

/-- Witness for ranker_scores_and_selects at a concrete singleton
candidate list. -/
theorem ranker_scores_and_selects_witness :
    rankerSelectsSpec [⟨"abc", 10, 0⟩] "abc" none "USD" :=
  ranker_scores_and_selects [⟨"abc", 10, 0⟩] "abc" none "USD" (by simp)

/-- C9: the scoring-and-selection step is deterministic — two
invocations on equal candidate lists, target names, reference
prices and currencies return identical outcomes. -/
theorem ranker_deterministic (rs1 rs2 : List SearchResult) (t1 t2 : String)
    (ref1 ref2 : Option ℚ) (cur1 cur2 : String)
    (h1 : rs1 = rs2) (h2 : t1 = t2) (h3 : ref1 = ref2) (h4 : cur1 = cur2) :
    scrapeSearchRank rs1 t1 ref1 cur1 = scrapeSearchRank rs2 t2 ref2 cur2 := by
  subst h1
  subst h2
  subst h3
  subst h4
  rfl

/-- Witness for ranker_deterministic at concrete equal inputs. -/
theorem ranker_deterministic_witness :
    scrapeSearchRank [⟨"abc", 10, 0⟩] "abc" none "USD" =
      scrapeSearchRank [⟨"abc", 10, 0⟩] "abc" none "USD" :=
  ranker_deterministic [⟨"abc", 10, 0⟩] [⟨"abc", 10, 0⟩] "abc" "abc"
    none none "USD" "USD" rfl rfl rfl rfl

/-! The orchestrator and currency resolution. -/

/-- C4 counterexample: with a stored old price of 0 and a newly
scraped price of 5 the two prices differ, yet no history entry is
appended — the JavaScript truthiness guard oldPrice && … skips a
stored price of 0. -/
theorem history_zero_old_counterexample :
    (5 : ℚ) ≠ (0 : ℚ) ∧
    (runProductCycle (some 5) (some 0) "USD" false).historyInserts = [] := by
  refine ⟨by norm_num, ?_⟩
  simp [runProductCycle]

/-- C4 amended: when the own-page scrape succeeds, at most one
history entry is appended per product per cycle, any appended entry
carries the scraped price and the automation source tag, and an
entry is appended exactly when the stored old price is present,
nonzero (truthy) and differs from the new price in either
direction. -/
theorem history_append_iff (newPrice : ℚ) (oldPrice : Option ℚ)
    (currency : String) (webhookConfigured : Bool) :
    (runProductCycle (some newPrice) oldPrice currency
        webhookConfigured).historyInserts.length ≤ 1 ∧
    (∀ e ∈ (runProductCycle (some newPrice) oldPrice currency
        webhookConfigured).historyInserts,
      e = (newPrice, "price_worker_automation")) ∧
    ((runProductCycle (some newPrice) oldPrice currency
        webhookConfigured).historyInserts ≠ [] ↔
      ∃ o, oldPrice = some o ∧ o ≠ 0 ∧ newPrice ≠ o) := by
  cases oldPrice with
  | none => simp [runProductCycle]
  | some o =>
    by_cases ho : o = 0
    · subst ho
      simp [runProductCycle]
    · rcases lt_trichotomy newPrice o with h | h | h
      · have hne : newPrice ≠ o := ne_of_lt h
        simp [runProductCycle, ho, h, hne]
      · subst h
        simp [runProductCycle, ho]
      · have hne : newPrice ≠ o := ne_of_gt h
        have hnl : ¬ newPrice < o := not_lt.mpr (le_of_lt h)
        simp [runProductCycle, ho, h, hne, hnl]

/-- Witness for history_append_iff: a concrete price drop from 10 to
5 appends exactly the automation-tagged entry. -/
theorem history_append_iff_witness :
    (runProductCycle (some 5) (some 10) "USD" false).historyInserts.length ≤ 1 ∧
    (∀ e ∈ (runProductCycle (some 5) (some 10) "USD" false).historyInserts,
      e = ((5 : ℚ), "price_worker_automation")) ∧
    ((runProductCycle (some 5) (some 10) "USD" false).historyInserts ≠ [] ↔
      ∃ o, (some (10 : ℚ) : Option ℚ) = some o ∧ o ≠ 0 ∧ (5 : ℚ) ≠ o) :=
  history_append_iff 5 (some 10) "USD" false

/-- C5: when the own-page scrape fails, the cycle sets the product
status to scrape_failed and performs zero comparison upserts. -/
theorem scrape_failed_skips_comparisons (oldPrice : Option ℚ)
    (currency : String) (webhookConfigured : Bool) :
    (runProductCycle none oldPrice currency webhookConfigured).status =
      "scrape_failed" ∧
    (runProductCycle none oldPrice currency webhookConfigured).comparisonUpserts
      = 0 :=
  ⟨rfl, rfl⟩

/-- C7: even when a price drop is detected (truthy stored old price,
strictly lower new price) and the owning user has a webhook
configured, the cycle appends the history entry but issues zero
webhook posts — sendDiscordNotification is defined in the worker
but never invoked. -/
theorem webhook_never_fired (newPrice o : ℚ) (currency : String)
    (ho : o ≠ 0) (hdrop : newPrice < o) :
    (runProductCycle (some newPrice) (some o) currency true).historyInserts ≠ [] ∧
    (runProductCycle (some newPrice) (some o) currency true).webhookPosts = 0 := by
  refine ⟨?_, rfl⟩
  simp [runProductCycle, ho, hdrop]

/-- Witness for webhook_never_fired: a drop from 100 to 80 with a
webhook configured posts nothing. -/
theorem webhook_never_fired_witness :
    (100 : ℚ) ≠ 0 ∧ (80 : ℚ) < 100 ∧
    ((runProductCycle (some 80) (some 100) "USD" true).historyInserts ≠ [] ∧
      (runProductCycle (some 80) (some 100) "USD" true).webhookPosts = 0) :=
  ⟨by norm_num, by norm_num,
    webhook_never_fired 80 100 "USD" (by norm_num) (by norm_num)⟩

/-- C10: currency resolution is substring matching on the hostname,
not domain-suffix parsing — www.cash.com (a .com host) resolves to
CAD because ".ca" occurs inside ".cash", the CAD store list is the
one searched, and the checks apply in the fixed order .co.uk, then
.de/.fr/.it/.es, then .ca, then .com.au, as the multi-pattern hosts
show. -/
theorem currency_substring_resolution :
    (∀ stored : String, resolveCurrency "www.cash.com" stored = "CAD") ∧
    getStoresForCurrency "CAD" = ["Amazon", "eBay", "Best Buy CA", "Walmart CA"] ∧
    (∀ stored : String, resolveCurrency "a.co.uk.de.ca.com.au" stored = "GBP") ∧
    (∀ stored : String, resolveCurrency "a.de.ca.com.au" stored = "EUR") ∧
    (∀ stored : String, resolveCurrency "a.ca.com.au" stored = "CAD") ∧
    (∀ stored : String, resolveCurrency "a.com.au" stored = "AUD") := by
  refine ⟨?_, by decide, ?_, ?_, ?_, ?_⟩ <;> intro stored <;>
    simp only [resolveCurrency]
  · have h1 : jsIncludes "www.cash.com" ".co.uk" = false := by decide
    have h2 : jsIncludes "www.cash.com" ".de" = false := by decide
    have h3 : jsIncludes "www.cash.com" ".fr" = false := by decide
    have h4 : jsIncludes "www.cash.com" ".it" = false := by decide
    have h5 : jsIncludes "www.cash.com" ".es" = false := by decide
    have h6 : jsIncludes "www.cash.com" ".ca" = true := by decide
    simp [h1, h2, h3, h4, h5, h6]
  · have h1 : jsIncludes "a.co.uk.de.ca.com.au" ".co.uk" = true := by decide
    simp [h1]
  · have h1 : jsIncludes "a.de.ca.com.au" ".co.uk" = false := by decide
    have h2 : jsIncludes "a.de.ca.com.au" ".de" = true := by decide
    simp [h1, h2]
  · have h1 : jsIncludes "a.ca.com.au" ".co.uk" = false := by decide
    have h2 : jsIncludes "a.ca.com.au" ".de" = false := by decide
    have h3 : jsIncludes "a.ca.com.au" ".fr" = false := by decide
    have h4 : jsIncludes "a.ca.com.au" ".it" = false := by decide
    have h5 : jsIncludes "a.ca.com.au" ".es" = false := by decide
    have h6 : jsIncludes "a.ca.com.au" ".ca" = true := by decide
    simp [h1, h2, h3, h4, h5, h6]
  · have h1 : jsIncludes "a.com.au" ".co.uk" = false := by decide
    have h2 : jsIncludes "a.com.au" ".de" = false := by decide
    have h3 : jsIncludes "a.com.au" ".fr" = false := by decide
    have h4 : jsIncludes "a.com.au" ".it" = false := by decide
    have h5 : jsIncludes "a.com.au" ".es" = false := by decide
    have h6 : jsIncludes "a.com.au" ".ca" = false := by decide
    have h7 : jsIncludes "a.com.au" ".com.au" = true := by decide
    simp [h1, h2, h3, h4, h5, h6, h7]

end PricePulse
